import Mathlib

/-!
Verification of the Spacetime-Crystal Evolver (`06_spacetime_crystal.py`).

The graph is embedded as a list of weighted edges `(u, v, w)` (matching the
networkx insertion-ordered edge list) together with a list of nodes.  Edge
weights are rationals, the idealised arithmetic of the Python floats.
Python `set` values are embedded as duplicate-free lists (`List.dedup`),
so that `set` intersection, union and cardinality become `List.inter`,
`List.union` and `List.length` on deduplicated lists.  Randomness is an
explicit stream `ℕ → ℚ` of draws, the `k`-th draw standing for the `k`-th
call to `random.random()`.
-/

/-- An edge `(u, v, weight)` of the evolving graph. -/
abbrev Edge := ℕ × ℕ × ℚ

/-- A networkx-style graph: a node list plus a weighted edge list. -/
structure Graph where
  nodes : List ℕ
  edges : List Edge
deriving DecidableEq

/-- Module constant `GRAVITY_STRENGTH = 0.3` (source line 33). -/
def GRAVITY_STRENGTH : ℚ := 3 / 10

/-- Module constant `DARK_ENERGY = 0.1` (source line 34). -/
def DARK_ENERGY : ℚ := 1 / 10

/-- Module constant `CUTOFF_THRESHOLD = 0.5` (source line 35). -/
def CUTOFF_THRESHOLD : ℚ := 1 / 2

/-- The literal weight cap `2.0` hard-coded in `evolve` (source line 75). -/
def WEIGHT_CAP : ℚ := 2

/-- Module constant `NUM_NODES = 60` (source line 27). -/
def NUM_NODES : ℕ := 60

/-- Module constant `INITIAL_PROB = 0.25` (source line 28). -/
def INITIAL_PROB : ℚ := 1 / 4

/-- Module constant `STEPS = 60` (source line 29). -/
def STEPS : ℕ := 60

/-- Unordered-pair equality of edge endpoints, as networkx treats
`(u, v)` and `(v, u)` as the same edge key. -/
def pairEq (a b : ℕ × ℕ) : Bool :=
  (a.1 == b.1 && a.2 == b.2) || (a.1 == b.2 && a.2 == b.1)

/-- `set(self.G.neighbors(u))`: the distinct nodes adjacent to `u`
under the current edge list. -/
def nbrs (E : List Edge) (u : ℕ) : List ℕ :=
  (E.filterMap (fun e =>
    if e.1 = u then some e.2.1
    else if e.2.1 = u then some e.1
    else none)).dedup

/-- `SpacetimeCrystal.calculate_curvature` (source lines 44-55): the Jaccard
overlap of the endpoint neighbourhoods, with sentinel `-1` when either
neighbourhood is empty or the union is empty. -/
def calculate_curvature (E : List Edge) (u v : ℕ) : ℚ :=
  let nu := nbrs E u
  let nv := nbrs E v
  if nu = [] ∨ nv = [] then -1
  else
    let common := (nu.inter nv).length
    let union := (nu.union nv).length
    if union = 0 then -1
    else (common : ℚ) / (union : ℚ)

/-- The evolution increment `delta_w = GRAVITY_STRENGTH * kappa - DARK_ENERGY`
(source line 70). -/
def delta_w (kappa : ℚ) : ℚ := GRAVITY_STRENGTH * kappa - DARK_ENERGY

/-- The weight clamp `if new_w > 2.0: new_w = 2.0` (source line 75). -/
def capWeight (w : ℚ) : ℚ := if w > WEIGHT_CAP then WEIGHT_CAP else w

/-- Reading `self.G[u][v]['weight']` from the current edge list (the live
attribute dictionary of the unordered edge `(u, v)`). -/
def getWeight (E : List Edge) (u v : ℕ) : ℚ :=
  ((E.find? (fun e => pairEq (e.1, e.2.1) (u, v))).map (fun e => e.2.2)).getD 0

/-- Writing `self.G[u][v]['weight'] = w` (source line 78): replace the stored
weight of the unordered edge `(u, v)`. -/
def setWeight (E : List Edge) (u v : ℕ) (w : ℚ) : List Edge :=
  E.map (fun e => if pairEq (e.1, e.2.1) (u, v) then (e.1, e.2.1, w) else e)

/-- `self.G.remove_edges_from(edges_to_remove)` (source line 86): delete every
edge whose unordered endpoint pair occurs in the removal list. -/
def removeEdges (E : List Edge) (rem : List (ℕ × ℕ)) : List Edge :=
  E.filter (fun e => !(rem.any (fun p => pairEq (e.1, e.2.1) p)))

/-- One iteration of the `for u, v, data in current_edges` loop body of
`evolve` (source lines 63-82): read the live weight, compute curvature from
the current graph, commit the capped new weight in place, and append the edge
to the removal list when the new weight falls below the cutoff. -/
def evolveStep (st : List Edge × List (ℕ × ℕ)) (e : Edge) : List Edge × List (ℕ × ℕ) :=
  let u := e.1
  let v := e.2.1
  let w := getWeight st.1 u v
  let kappa := calculate_curvature st.1 u v
  let new_w := capWeight (w + delta_w kappa)
  ( setWeight st.1 u v new_w
  , if new_w < CUTOFF_THRESHOLD then st.2 ++ [(u, v)] else st.2 )

/-- `SpacetimeCrystal.evolve` (source lines 57-88): fold the loop body over a
snapshot of the edge list, then remove the marked edges and return their
count. -/
def evolve (E : List Edge) : List Edge × ℕ :=
  let res := E.foldl evolveStep (E, [])
  (removeEdges res.1 res.2, res.2.length)

/-- The weight an edge receives this tick when its curvature is taken from
the pre-tick neighbour structure: `min(w + delta, cap)`. -/
def refWeight (E : List Edge) (e : Edge) : ℚ :=
  capWeight (e.2.2 + delta_w (calculate_curvature E e.1 e.2.1))

/-- Modelled from the spec: the compute-then-commit-then-remove reference
tick of section 4.1 — every curvature is taken from the pre-tick edge list,
all new weights are committed, and the below-cutoff edges are removed at the
end, their count returned. -/
def evolve_ref (E : List Edge) : List Edge × ℕ :=
  let updated := E.map (fun e => (e.1, e.2.1, refWeight E e))
  ( updated.filter (fun e => !decide (e.2.2 < CUTOFF_THRESHOLD))
  , (updated.filter (fun e => decide (e.2.2 < CUTOFF_THRESHOLD))).length )

/-- Whether the unordered pair `p` occurs as an edge of `E`. -/
def pairMemB (p : ℕ × ℕ) (E : List Edge) : Bool :=
  E.any (fun e => pairEq (e.1, e.2.1) p)

/-- No edge of the list is a self-loop (`create_manual_random_graph` only
ever links `i < j`, and networkx never creates loops by itself). -/
def noSelfLoopB (E : List Edge) : Bool :=
  E.all (fun e => !(e.1 == e.2.1))

/-- No two entries of the edge list share the same unordered endpoint pair
(a networkx `Graph` stores each unordered pair at most once). -/
def nodupPairsB : List Edge → Bool
  | [] => true
  | e :: t => t.all (fun e' => !pairEq (e.1, e.2.1) (e'.1, e'.2.1)) && nodupPairsB t

/-- `nx.average_clustering` was called with default arguments, so the local
clustering coefficient of `u` is unweighted: twice the number of edges among
the neighbours of `u`, divided by `deg(u) * (deg(u) - 1)`, and `0` when
`deg(u) < 2`. -/
def clusteringAt (E : List Edge) (u : ℕ) : ℚ :=
  let nu := nbrs E u
  let k := nu.length
  if k < 2 then 0
  else
    let tri := ((nu.product nu).filter
      (fun p => decide (p.1 < p.2) && pairMemB (p.1, p.2) E)).length
    (2 * tri : ℚ) / ((k : ℚ) * ((k : ℚ) - 1))

/-- `SpacetimeCrystal.measure_order` (source lines 90-92): `0` on an empty
graph, otherwise the average clustering coefficient over all nodes. -/
def measure_order (G : Graph) : ℚ :=
  if G.nodes.length = 0 then 0
  else ((G.nodes.map (clusteringAt G.edges)).sum) / (G.nodes.length : ℚ)

/-- One call of `sim.evolve()` on the graph object: the node set is untouched
(`remove_edges_from` never deletes nodes), the edge list is replaced, and the
number of removed edges is returned. -/
def tick (G : Graph) : Graph × ℕ :=
  let r := evolve G.edges
  (⟨G.nodes, r.1⟩, r.2)

/-- The graph after `k` successive `evolve()` calls. -/
def ticksN (G : Graph) : ℕ → Graph
  | 0 => G
  | k + 1 => (tick (ticksN G k)).1

/-- The unordered pairs `(i, j)`, `i < j`, visited by the nested loops of
`create_manual_random_graph` (source lines 16-17), in visit order. -/
def pairList (n : ℕ) : List (ℕ × ℕ) :=
  (List.range n).flatMap (fun i =>
    ((List.range n).filter (fun j => decide (i < j))).map (fun j => (i, j)))

/-- `create_manual_random_graph(n, p)` (source lines 13-20): nodes `0..n-1`;
for the `k`-th visited pair, an edge of weight `1.0` is created exactly when
the `k`-th draw of the random stream is `< p`.  There is no validation of
`n` or `p`: the function is total. -/
def create_manual_random_graph (n : ℕ) (p : ℚ) (rnd : ℕ → ℚ) : Graph :=
  ⟨ List.range n
  , (pairList n).enum.filterMap (fun ke =>
      if rnd ke.1 < p then some (ke.2.1, ke.2.2, (1 : ℚ)) else none) ⟩

/-- `SpacetimeCrystal.__init__` (source lines 38-42): build the random graph,
then set every edge weight to `1.0` again. -/
def crystalInit (n : ℕ) (p : ℚ) (rnd : ℕ → ℚ) : Graph :=
  let G := create_manual_random_graph n p rnd
  ⟨G.nodes, G.edges.map (fun e => (e.1, e.2.1, (1 : ℚ)))⟩

/-- The state after `k` ticks together with the per-tick removal counts, for
a run constructed from `(n, p, rnd)`. -/
def simHistory (n : ℕ) (p : ℚ) (rnd : ℕ → ℚ) : ℕ → Graph × List ℕ
  | 0 => (crystalInit n p rnd, [])
  | k + 1 =>
    let s := simHistory n p rnd k
    let r := tick s.1
    (r.1, s.2 ++ [r.2])

/-- Proof device: give each edge of `G` the new weight of the entry of `S`
with the same unordered pair, if there is one. -/
def assignWeights (G S : List Edge) (f : Edge → ℚ) : List Edge :=
  G.map (fun g =>
    (S.find? (fun s => pairEq (s.1, s.2.1) (g.1, g.2.1))).elim g
      (fun s => (g.1, g.2.1, f s)))

/-- Evaluation scheme for a concrete curvature: supply the two neighbour
lists and the sizes of their intersection and union. -/
lemma curvature_eval (E : List Edge) (u v : ℕ) (nu nv : List ℕ) (a b : ℕ)
    (h1 : nbrs E u = nu) (h2 : nbrs E v = nv) (hne : ¬(nu = [] ∨ nv = []))
    (hi : (nu.inter nv).length = a) (hu : (nu.union nv).length = b)
    (hb : ¬(b = 0)) :
    calculate_curvature E u v = (a : ℚ) / (b : ℚ) := by
  rw [calculate_curvature, h1, h2, if_neg hne, hi, hu, if_neg hb]

lemma pairEq_refl (a : ℕ × ℕ) : pairEq a a = true := by
  simp [pairEq]

lemma pairEq_comm (a b : ℕ × ℕ) : pairEq a b = pairEq b a := by
  simp only [pairEq]
  apply Bool.eq_iff_iff.mpr
  simp only [Bool.or_eq_true, Bool.and_eq_true, beq_iff_eq]
  tauto

lemma pairEq_trans {a b c : ℕ × ℕ} (h1 : pairEq a b = true)
    (h2 : pairEq b c = true) : pairEq a c = true := by
  simp only [pairEq, Bool.or_eq_true, Bool.and_eq_true, beq_iff_eq] at h1 h2 ⊢
  rcases h1 with ⟨x1, x2⟩ | ⟨x1, x2⟩ <;> rcases h2 with ⟨y1, y2⟩ | ⟨y1, y2⟩ <;>
    simp_all

/-- Re-weighting an edge never changes any neighbourhood: `setWeight`
preserves the endpoints of every edge. -/
lemma nbrs_setWeight (E : List Edge) (u v : ℕ) (w : ℚ) (x : ℕ) :
    nbrs (setWeight E u v w) x = nbrs E x := by
  unfold nbrs setWeight
  rw [List.filterMap_map]
  congr 1
  apply List.filterMap_congr
  intro e _
  by_cases h : pairEq (e.1, e.2.1) (u, v) = true <;> simp [h]

/-- Curvature only looks at the two neighbourhoods. -/
lemma curvature_congr {E₁ E₂ : List Edge} (u v : ℕ)
    (h : ∀ x, nbrs E₁ x = nbrs E₂ x) :
    calculate_curvature E₁ u v = calculate_curvature E₂ u v := by
  simp only [calculate_curvature, h u, h v]

lemma setWeight_cons (e : Edge) (t : List Edge) (u v : ℕ) (w : ℚ) :
    setWeight (e :: t) u v w =
      (if pairEq (e.1, e.2.1) (u, v) = true then (e.1, e.2.1, w) else e) ::
        setWeight t u v w := rfl

lemma getWeight_cons_ne (e : Edge) {t : List Edge} {a b : ℕ}
    (h : pairEq (e.1, e.2.1) (a, b) = false) :
    getWeight (e :: t) a b = getWeight t a b := by
  simp only [getWeight, List.find?, h]

lemma getWeight_cons_eq (e : Edge) {t : List Edge} {a b : ℕ}
    (h : pairEq (e.1, e.2.1) (a, b) = true) :
    getWeight (e :: t) a b = e.2.2 := by
  simp only [getWeight, List.find?, h, Option.map_some', Option.getD_some]

/-- Re-weighting one unordered pair leaves the stored weight of every other
pair unchanged. -/
lemma getWeight_setWeight_ne (E : List Edge) {a b u v : ℕ} (w : ℚ)
    (h : pairEq (a, b) (u, v) = false) :
    getWeight (setWeight E u v w) a b = getWeight E a b := by
  induction E with
  | nil => rfl
  | cons e t ih =>
    rw [setWeight_cons]
    by_cases hp : pairEq (e.1, e.2.1) (u, v) = true
    · have hq : pairEq (e.1, e.2.1) (a, b) = false := by
        by_contra hq
        rw [Bool.not_eq_false] at hq
        have := pairEq_trans ((pairEq_comm _ _) ▸ hp) hq
        rw [pairEq_comm] at this
        simp [this] at h
      rw [if_pos hp, getWeight_cons_ne (e.1, e.2.1, w) hq, getWeight_cons_ne e hq]
      exact ih
    · rw [if_neg hp]
      by_cases hq : pairEq (e.1, e.2.1) (a, b) = true
      · rw [getWeight_cons_eq e hq, getWeight_cons_eq e hq]
      · rw [Bool.not_eq_true] at hq
        rw [getWeight_cons_ne e hq, getWeight_cons_ne e hq]
        exact ih

/-- In a duplicate-free edge list the search for an edge's own unordered
pair finds exactly that edge. -/
lemma find_pair_self {E : List Edge} {e : Edge} (h : nodupPairsB E = true)
    (he : e ∈ E) :
    E.find? (fun x => pairEq (x.1, x.2.1) (e.1, e.2.1)) = some e := by
  induction E with
  | nil => cases he
  | cons a t ih =>
    simp only [nodupPairsB, Bool.and_eq_true, List.all_eq_true] at h
    rcases List.mem_cons.mp he with rfl | hm
    · simp only [List.find?, pairEq_refl]
    · have hne : pairEq (a.1, a.2.1) (e.1, e.2.1) = false := by
        have := h.1 e hm
        simpa using this
      simp only [List.find?, hne]
      exact ih h.2 hm

/-- In a duplicate-free edge list, the stored weight of an edge's own pair
is that edge's weight. -/
lemma getWeight_self {E : List Edge} {e : Edge} (h : nodupPairsB E = true)
    (he : e ∈ E) : getWeight E e.1 e.2.1 = e.2.2 := by
  simp only [getWeight, find_pair_self h he, Option.map_some', Option.getD_some]

/-- In a duplicate-free edge list, two member edges with the same unordered
pair are the same entry. -/
lemma pairEq_uniq {E : List Edge} {a b : Edge} (h : nodupPairsB E = true)
    (ha : a ∈ E) (hb : b ∈ E)
    (hp : pairEq (a.1, a.2.1) (b.1, b.2.1) = true) : a = b := by
  induction E with
  | nil => cases ha
  | cons x t ih =>
    simp only [nodupPairsB, Bool.and_eq_true, List.all_eq_true] at h
    rcases List.mem_cons.mp ha with rfl | ha' <;>
      rcases List.mem_cons.mp hb with rfl | hb'
    · rfl
    · exfalso
      have := h.1 b hb'
      simp [hp] at this
    · exfalso
      have := h.1 a ha'
      rw [pairEq_comm] at hp
      simp [hp] at this
    · exact ih h.2 ha' hb'

/-- Loop invariant of `evolve`: as long as the state reached so far has the
same neighbour structure as the snapshot `E` and the still-unprocessed edges
keep their snapshot weights, the rest of the loop commits exactly the
reference weights and marks exactly the below-cutoff edges, in order. -/
lemma foldl_evolveStep (E : List Edge) (S : List Edge) :
    ∀ (G : List Edge) (rem : List (ℕ × ℕ)),
      (∀ x, nbrs G x = nbrs E x) →
      (∀ e ∈ S, getWeight G e.1 e.2.1 = e.2.2) →
      nodupPairsB S = true →
      S.foldl evolveStep (G, rem) =
        ( S.foldl (fun H e => setWeight H e.1 e.2.1 (refWeight E e)) G
        , rem ++ (S.filter (fun e => decide (refWeight E e < CUTOFF_THRESHOLD))).map
            (fun e => (e.1, e.2.1)) ) := by
  induction S with
  | nil =>
    intro G rem _ _ _
    simp
  | cons e S' ih =>
    intro G rem hn hw hS
    simp only [nodupPairsB, Bool.and_eq_true, List.all_eq_true] at hS
    have hgw : getWeight G e.1 e.2.1 = e.2.2 := hw e (List.mem_cons_self e S')
    have hcv : calculate_curvature G e.1 e.2.1 = calculate_curvature E e.1 e.2.1 :=
      curvature_congr _ _ hn
    have hstep : evolveStep (G, rem) e =
        ( setWeight G e.1 e.2.1 (refWeight E e)
        , if refWeight E e < CUTOFF_THRESHOLD then rem ++ [(e.1, e.2.1)] else rem ) := by
      simp only [evolveStep, hgw, hcv, refWeight]
    rw [List.foldl_cons, List.foldl_cons, hstep]
    have hn' : ∀ x, nbrs (setWeight G e.1 e.2.1 (refWeight E e)) x = nbrs E x :=
      fun x => (nbrs_setWeight G e.1 e.2.1 _ x).trans (hn x)
    have hw' : ∀ e' ∈ S',
        getWeight (setWeight G e.1 e.2.1 (refWeight E e)) e'.1 e'.2.1 = e'.2.2 := by
      intro e' he'
      have hne : pairEq (e.1, e.2.1) (e'.1, e'.2.1) = false := by
        have := hS.1 e' he'
        simpa using this
      rw [getWeight_setWeight_ne]
      · exact hw e' (List.mem_cons_of_mem _ he')
      · rw [pairEq_comm]
        exact hne
    rw [ih _ _ hn' hw' hS.2]
    by_cases hc : refWeight E e < CUTOFF_THRESHOLD
    · rw [if_pos hc]
      simp [List.filter_cons, hc]
    · rw [if_neg hc]
      simp [List.filter_cons, hc]

/-- Folding `setWeight` over a duplicate-free update list is a single
assignment pass. -/
lemma foldl_setWeight (f : Edge → ℚ) (S : List Edge) :
    ∀ G : List Edge, nodupPairsB S = true →
      S.foldl (fun H e => setWeight H e.1 e.2.1 (f e)) G = assignWeights G S f := by
  induction S with
  | nil =>
    intro G _
    simp [assignWeights, List.find?]
  | cons s S' ih =>
    intro G hS
    simp only [nodupPairsB, Bool.and_eq_true, List.all_eq_true] at hS
    rw [List.foldl_cons, ih _ hS.2]
    unfold assignWeights setWeight
    rw [List.map_map]
    have hfun : ∀ g : Edge,
        ((fun g =>
          (S'.find? (fun s => pairEq (s.1, s.2.1) (g.1, g.2.1))).elim g
            (fun x => (g.1, g.2.1, f x))) ∘
          (fun e => if pairEq (e.1, e.2.1) (s.1, s.2.1) = true
            then (e.1, e.2.1, f s) else e)) g =
        ((List.find? (fun x => pairEq (x.1, x.2.1) (g.1, g.2.1)) (s :: S')).elim g
          (fun x => (g.1, g.2.1, f x))) := by
      intro g
      by_cases hp : pairEq (g.1, g.2.1) (s.1, s.2.1) = true
      · have hps : pairEq (s.1, s.2.1) (g.1, g.2.1) = true := by
          rw [pairEq_comm]
          exact hp
        have hnone : S'.find? (fun x => pairEq (x.1, x.2.1) (g.1, g.2.1)) = none := by
          rw [List.find?_eq_none]
          intro s' hs'
          simp only [Bool.not_eq_true]
          by_contra hx
          rw [Bool.not_eq_false] at hx
          have h1 : pairEq (s'.1, s'.2.1) (s.1, s.2.1) =
              true := pairEq_trans hx hp
          have h2 := hS.1 s' hs'
          rw [pairEq_comm] at h1
          simp [h1] at h2
        simp only [Function.comp, pairEq_comm s.1, if_pos hp, List.find?, hps,
          Option.elim_some]
        rw [show ((g.1, g.2.1, f s).1, (g.1, g.2.1, f s).2.1) = (g.1, g.2.1) from rfl,
          hnone]
        rfl
      · have hps : pairEq (s.1, s.2.1) (g.1, g.2.1) = false := by
          rw [pairEq_comm, ← Bool.not_eq_true]
          exact hp
        rw [Bool.not_eq_true] at hp
        simp only [Function.comp, hp, if_false, Bool.false_eq_true, List.find?, hps]
      -- both sides now search S' with the pair of g
    rw [List.map_congr_left (fun g _ => hfun g)]

/-- Assigning a duplicate-free edge list its own new weights is a plain map. -/
lemma assign_self (E : List Edge) (f : Edge → ℚ) (h : nodupPairsB E = true) :
    assignWeights E E f = E.map (fun e => (e.1, e.2.1, f e)) := by
  unfold assignWeights
  apply List.map_congr_left
  intro e he
  rw [find_pair_self h he]
  rfl

/-- Removing exactly the marked pairs from the updated edge list is the
same as filtering out the below-cutoff updated edges. -/
lemma removeEdges_marks (E : List Edge) (f : Edge → ℚ) (h : nodupPairsB E = true) :
    removeEdges (E.map (fun e => (e.1, e.2.1, f e)))
        ((E.filter (fun e => decide (f e < CUTOFF_THRESHOLD))).map
          (fun e => (e.1, e.2.1)))
      = (E.map (fun e => (e.1, e.2.1, f e))).filter
          (fun e => !decide (e.2.2 < CUTOFF_THRESHOLD)) := by
  unfold removeEdges
  rw [List.filter_map, List.filter_map]
  congr 1
  apply List.filter_congr
  intro e he
  simp only [Function.comp]
  congr 1
  by_cases hc : f e < CUTOFF_THRESHOLD
  · rw [show decide ((e.1, e.2.1, f e).2.2 < CUTOFF_THRESHOLD) =
        decide (f e < CUTOFF_THRESHOLD) from rfl]
    rw [decide_eq_true hc]
    rw [List.any_eq_true]
    refine ⟨(e.1, e.2.1), ?_, ?_⟩
    · exact List.mem_map_of_mem _ (List.mem_filter.mpr ⟨he, decide_eq_true hc⟩)
    · exact pairEq_refl _
  · rw [show decide ((e.1, e.2.1, f e).2.2 < CUTOFF_THRESHOLD) =
        decide (f e < CUTOFF_THRESHOLD) from rfl]
    rw [decide_eq_false hc]
    rw [← Bool.not_eq_true, List.any_eq_true]
    rintro ⟨p, hp, hpe⟩
    rcases List.mem_map.mp hp with ⟨e', he', rfl⟩
    rcases List.mem_filter.mp he' with ⟨he'E, hc'⟩
    have : (e.1, e.2.1, f e) = (e'.1, e'.2.1, f e') := by
      have := pairEq_uniq h he he'E
        (by simpa using hpe)
      rw [this]
    have heq : e = e' := pairEq_uniq h he he'E (by simpa using hpe)
    rw [heq] at hc
    exact hc (of_decide_eq_true hc')

/-- The interleaved loop of `evolve` computes exactly the reference tick on
any duplicate-free edge list. -/
lemma evolve_eq_ref_of_nodup (E : List Edge) (h : nodupPairsB E = true) :
    evolve E = evolve_ref E := by
  have hfold := foldl_evolveStep E E E []
    (fun _ => rfl) (fun e he => getWeight_self h he) h
  rw [evolve, hfold, foldl_setWeight _ E E h, assign_self E _ h]
  dsimp only
  rw [List.nil_append, removeEdges_marks E (fun e => refWeight E e) h, evolve_ref]
  rw [List.filter_map]
  simp only [List.length_map]
  rw [List.filter_map]
  simp only [List.length_map]
  rfl

/-- The weight clamp never lets a committed weight exceed the cap. -/
lemma capWeight_le (w : ℚ) : capWeight w ≤ WEIGHT_CAP := by
  rw [capWeight]
  by_cases hc : w > WEIGHT_CAP
  · rw [if_pos hc]
  · rw [if_neg hc]
    exact le_of_not_lt hc

lemma noSelfLoop_spec {E : List Edge} (h : noSelfLoopB E = true) :
    ∀ e ∈ E, e.1 ≠ e.2.1 := by
  intro e he
  simp only [noSelfLoopB, List.all_eq_true] at h
  have := h e he
  simpa using this

lemma nbrs_nodup (E : List Edge) (u : ℕ) : (nbrs E u).Nodup := by
  unfold nbrs
  exact List.nodup_dedup _

lemma snd_mem_nbrs {E : List Edge} {e : Edge} (he : e ∈ E) :
    e.2.1 ∈ nbrs E e.1 := by
  rw [nbrs, List.mem_dedup]
  exact List.mem_filterMap.mpr ⟨e, he, by simp⟩

lemma fst_mem_nbrs {E : List Edge} {e : Edge} (he : e ∈ E) (hne : e.1 ≠ e.2.1) :
    e.1 ∈ nbrs E e.2.1 := by
  rw [nbrs, List.mem_dedup]
  refine List.mem_filterMap.mpr ⟨e, he, ?_⟩
  rw [if_neg hne, if_pos rfl]

lemma not_mem_nbrs_self {E : List Edge} (h : noSelfLoopB E = true) (u : ℕ) :
    u ∉ nbrs E u := by
  rw [nbrs, List.mem_dedup]
  intro hmem
  rcases List.mem_filterMap.mp hmem with ⟨e, he, hfe⟩
  have hne := noSelfLoop_spec h e he
  by_cases h1 : e.1 = u
  · rw [if_pos h1] at hfe
    have h2 : e.2.1 = u := by simpa using hfe
    exact hne (h1.trans h2.symm)
  · rw [if_neg h1] at hfe
    by_cases h2 : e.2.1 = u
    · rw [if_pos h2] at hfe
      have h3 : e.1 = u := by simpa using hfe
      exact h1 h3
    · rw [if_neg h2] at hfe
      simp at hfe

/-- For an actual edge of a loop-free graph the curvature is a genuine
Jaccard quotient in `[0, 1)`. -/
lemma curvature_edge_bounds {E : List Edge} {u v : ℕ} {w : ℚ}
    (hs : noSelfLoopB E = true) (he : (u, v, w) ∈ E) :
    0 ≤ calculate_curvature E u v ∧ calculate_curvature E u v < 1 := by
  have huv : u ≠ v := noSelfLoop_spec hs _ he
  have hv : v ∈ nbrs E u := snd_mem_nbrs he
  have hu : u ∈ nbrs E v := fst_mem_nbrs he huv
  have hnu : nbrs E u ≠ [] := List.ne_nil_of_mem hv
  have hnv : nbrs E v ≠ [] := List.ne_nil_of_mem hu
  have huu : u ∉ nbrs E u := not_mem_nbrs_self hs u
  have hui : u ∈ (nbrs E u).union (nbrs E v) := List.mem_union_iff.mpr (Or.inr hu)
  have hlen0 : ((nbrs E u).union (nbrs E v)).length ≠ 0 := by
    intro hz
    rw [List.length_eq_zero] at hz
    rw [hz] at hui
    cases hui
  rw [calculate_curvature]
  rw [if_neg (by push_neg; exact ⟨hnu, hnv⟩), if_neg hlen0]
  constructor
  · exact div_nonneg (Nat.cast_nonneg _) (Nat.cast_nonneg _)
  · rw [div_lt_one (by exact_mod_cast Nat.pos_of_ne_zero hlen0)]
    rw [Nat.cast_lt]
    have hnodup_i : ((nbrs E u).inter (nbrs E v)).Nodup := (nbrs_nodup E u).inter _
    have hnodup_u : ((nbrs E u).union (nbrs E v)).Nodup := (nbrs_nodup E v).union _
    have hsub : ((nbrs E u).inter (nbrs E v)).toFinset ⊆
        ((nbrs E u).union (nbrs E v)).toFinset := by
      intro x hx
      rw [List.mem_toFinset] at hx ⊢
      exact List.mem_union_iff.mpr (Or.inl (List.mem_inter_iff.mp hx).1)
    have hss : ((nbrs E u).inter (nbrs E v)).toFinset ⊂
        ((nbrs E u).union (nbrs E v)).toFinset := by
      rw [Finset.ssubset_def]
      refine ⟨hsub, fun hrev => ?_⟩
      have hmem : u ∈ ((nbrs E u).inter (nbrs E v)).toFinset :=
        hrev (List.mem_toFinset.mpr hui)
      rw [List.mem_toFinset] at hmem
      exact huu (List.mem_inter_iff.mp hmem).1
    have hcard := Finset.card_lt_card hss
    rwa [List.toFinset_card_of_nodup hnodup_i,
      List.toFinset_card_of_nodup hnodup_u] at hcard

/-- One tick of the golden scenario, evaluated. -/
lemma evolve_golden_eval :
    evolve [(0, 1, 1), (1, 2, 1), (2, 3, 1)] =
      ([(0, 1, 9/10), (1, 2, 9/10), (2, 3, 9/10)], 0) := by
  rw [evolve_eq_ref_of_nodup _ (by decide)]
  have c01 : calculate_curvature [(0, 1, 1), (1, 2, 1), (2, 3, 1)] 0 1 = (0 : ℚ) / 3 :=
    curvature_eval _ 0 1 [1] [0, 2] 0 3
      (by decide) (by decide) (by decide) (by decide) (by decide) (by decide)
  have c12 : calculate_curvature [(0, 1, 1), (1, 2, 1), (2, 3, 1)] 1 2 = (0 : ℚ) / 4 :=
    curvature_eval _ 1 2 [0, 2] [1, 3] 0 4
      (by decide) (by decide) (by decide) (by decide) (by decide) (by decide)
  have c23 : calculate_curvature [(0, 1, 1), (1, 2, 1), (2, 3, 1)] 2 3 = (0 : ℚ) / 3 :=
    curvature_eval _ 2 3 [1, 3] [2] 0 3
      (by decide) (by decide) (by decide) (by decide) (by decide) (by decide)
  have hw : capWeight (1 + delta_w ((0 : ℚ) / 3)) = 9/10 := by
    norm_num [capWeight, delta_w, GRAVITY_STRENGTH, DARK_ENERGY, WEIGHT_CAP]
  have hw4 : capWeight (1 + delta_w ((0 : ℚ) / 4)) = 9/10 := by
    norm_num [capWeight, delta_w, GRAVITY_STRENGTH, DARK_ENERGY, WEIGHT_CAP]
  have hlt : decide ((9 : ℚ)/10 < CUTOFF_THRESHOLD) = false := by
    rw [decide_eq_false_iff_not]
    norm_num [CUTOFF_THRESHOLD]
  simp only [evolve_ref, List.map_cons, List.map_nil, refWeight]
  rw [c01, c12, c23, hw, hw4]
  simp [hlt]

lemma filter_length_partition (l : List Edge) (q : Edge → Bool) :
    (l.filter (fun e => !q e)).length + (l.filter q).length = l.length := by
  induction l with
  | nil => rfl
  | cons e t ih =>
    by_cases hq : q e = true <;>
      simp only [List.filter_cons, hq, Bool.not_true, Bool.not_false, if_true, if_false,
        Bool.false_eq_true, List.length_cons] <;>
      omega

/-- C1: Golden scenario: on the 4-node path graph with edges
`(0,1), (1,2), (2,3)` of weight `1.0` and the hard-coded constants, a single
`evolve()` tick computes curvature `0` for every edge, applies delta `-0.1`
to each, removes no edges (returns `0`), and leaves exactly the three edges
with weight `0.9`. -/
theorem golden_scenario_tick :
    calculate_curvature [(0, 1, 1), (1, 2, 1), (2, 3, 1)] 0 1 = 0 ∧
    calculate_curvature [(0, 1, 1), (1, 2, 1), (2, 3, 1)] 1 2 = 0 ∧
    calculate_curvature [(0, 1, 1), (1, 2, 1), (2, 3, 1)] 2 3 = 0 ∧
    delta_w 0 = -(1/10) ∧
    evolve [(0, 1, 1), (1, 2, 1), (2, 3, 1)] =
      ([(0, 1, 9/10), (1, 2, 9/10), (2, 3, 9/10)], 0) := by
  refine ⟨?_, ?_, ?_, ?_, evolve_golden_eval⟩
  · rw [curvature_eval _ 0 1 [1] [0, 2] 0 3
      (by decide) (by decide) (by decide) (by decide) (by decide) (by decide)]
    norm_num
  · rw [curvature_eval _ 1 2 [0, 2] [1, 3] 0 4
      (by decide) (by decide) (by decide) (by decide) (by decide) (by decide)]
    norm_num
  · rw [curvature_eval _ 2 3 [1, 3] [2] 0 3
      (by decide) (by decide) (by decide) (by decide) (by decide) (by decide)]
    norm_num
  · norm_num [delta_w, GRAVITY_STRENGTH, DARK_ENERGY]

/-- C2: Weight range invariant: after any `evolve()` tick on a well-formed
(duplicate-free) edge list, every surviving edge weight lies between the
cutoff threshold and the weight cap. -/
theorem weights_in_range_after_tick (E : List Edge) (h : nodupPairsB E = true)
    (e : Edge) (he : e ∈ (evolve E).1) :
    CUTOFF_THRESHOLD ≤ e.2.2 ∧ e.2.2 ≤ WEIGHT_CAP := by
  rw [evolve_eq_ref_of_nodup E h, evolve_ref] at he
  dsimp only at he
  rcases List.mem_filter.mp he with ⟨hmem, hpred⟩
  constructor
  · have hnot : ¬(e.2.2 < CUTOFF_THRESHOLD) := by simpa using hpred
    exact le_of_not_lt hnot
  · rcases List.mem_map.mp hmem with ⟨e', _, rfl⟩
    show refWeight E e' ≤ WEIGHT_CAP
    rw [refWeight]
    exact capWeight_le _

theorem weights_in_range_after_tick_witness :
    nodupPairsB [(0, 1, 1), (1, 2, 1), (2, 3, 1)] = true ∧
    ((0 : ℕ), (1 : ℕ), (9 : ℚ)/10) ∈ (evolve [(0, 1, 1), (1, 2, 1), (2, 3, 1)]).1 ∧
    (CUTOFF_THRESHOLD ≤ ((0 : ℕ), (1 : ℕ), (9 : ℚ)/10).2.2 ∧
      ((0 : ℕ), (1 : ℕ), (9 : ℚ)/10).2.2 ≤ WEIGHT_CAP) := by
  have hmem : ((0 : ℕ), (1 : ℕ), (9 : ℚ)/10) ∈
      (evolve [(0, 1, 1), (1, 2, 1), (2, 3, 1)]).1 := by
    rw [evolve_golden_eval]
    exact List.mem_cons_self _ _
  exact ⟨by decide, hmem, weights_in_range_after_tick _ (by decide) _ hmem⟩

/-- C3: Tick ordering contract: on any well-formed (duplicate-free) edge
list the interleaved loop of `evolve()` is observably equivalent to the
spec's compute-then-commit-then-remove reference tick, whose curvatures are
all taken from the pre-tick neighbour structure: same post-tick edges, same
removal count. -/
theorem evolve_matches_reference (E : List Edge) (h : nodupPairsB E = true) :
    evolve E = evolve_ref E :=
  evolve_eq_ref_of_nodup E h

theorem evolve_matches_reference_witness :
    nodupPairsB [(0, 1, 1), (1, 2, 1), (2, 3, 1)] = true ∧
    evolve [(0, 1, 1), (1, 2, 1), (2, 3, 1)] =
      evolve_ref [(0, 1, 1), (1, 2, 1), (2, 3, 1)] :=
  ⟨by decide, evolve_matches_reference _ (by decide)⟩

/-- C4: Quiescence idempotence: once the graph has zero edges, any number
of further ticks leaves it unchanged, every further `evolve()` call returns
`0`, and `measure_order` stays `0`, forever. -/
theorem quiescent_forever (G : Graph) (k : ℕ) (h : G.edges = []) :
    ticksN G k = G ∧ (tick (ticksN G k)).2 = 0 ∧
      measure_order (ticksN G k) = 0 := by
  obtain ⟨ns, es⟩ := G
  change es = [] at h
  subst h
  have hstate : ∀ m, ticksN ⟨ns, []⟩ m = ⟨ns, []⟩ := by
    intro m
    induction m with
    | zero => rfl
    | succ m ihm =>
      rw [ticksN, ihm]
      rfl
  refine ⟨hstate k, ?_, ?_⟩
  · rw [hstate k]
    rfl
  · rw [hstate k, measure_order]
    by_cases hn : (Graph.mk ns ([] : List Edge)).nodes.length = 0
    · rw [if_pos hn]
    · rw [if_neg hn]
      have hsum : ((Graph.mk ns ([] : List Edge)).nodes.map
          (clusteringAt (Graph.mk ns ([] : List Edge)).edges)).sum = 0 := by
        apply List.sum_eq_zero
        intro x hx
        rcases List.mem_map.mp hx with ⟨u, _, rfl⟩
        rfl
      rw [hsum, zero_div]

theorem quiescent_forever_witness :
    (Graph.mk [0, 1, 2] []).edges = [] ∧
    (ticksN ⟨[0, 1, 2], []⟩ 5 = ⟨[0, 1, 2], []⟩ ∧
      (tick (ticksN ⟨[0, 1, 2], []⟩ 5)).2 = 0 ∧
      measure_order (ticksN ⟨[0, 1, 2], []⟩ 5) = 0) :=
  ⟨rfl, quiescent_forever ⟨[0, 1, 2], []⟩ 5 rfl⟩

/-- C5 counterexample: feeding the sentinel curvature `-1` into the update
formula of `evolve` yields delta `-0.4`, a strictly stronger penalty than
the pure penalty step `-darkEnergy = -0.1` the claim prescribes — the
formula does not treat the sentinel like curvature `0`. -/
theorem sentinel_delta_counterexample :
    delta_w (-1) = -(2/5) ∧ delta_w (-1) < -DARK_ENERGY ∧
      delta_w (-1) ≠ -DARK_ENERGY := by
  refine ⟨?_, ?_, ?_⟩ <;> norm_num [delta_w, GRAVITY_STRENGTH, DARK_ENERGY]

/-- C5 (amended): no edge processed by `evolve()` ever has sentinel
curvature `-1` (on a loop-free edge list), and the delta actually applied
to an edge is always at least `-darkEnergy`: never a stronger penalty than
the pure penalty step.  (Had the sentinel been fed to the formula the delta
would be `-0.4 < -darkEnergy`.) -/
theorem sentinel_unreachable_delta_bounded (E : List Edge) (u v : ℕ) (w : ℚ)
    (hs : noSelfLoopB E = true) (he : (u, v, w) ∈ E) :
    calculate_curvature E u v ≠ -1 ∧
      -DARK_ENERGY ≤ delta_w (calculate_curvature E u v) := by
  obtain ⟨h0, _⟩ := curvature_edge_bounds hs he
  constructor
  · intro hc
    rw [hc] at h0
    norm_num at h0
  · rw [delta_w]
    have hmul : 0 ≤ GRAVITY_STRENGTH * calculate_curvature E u v :=
      mul_nonneg (by norm_num [GRAVITY_STRENGTH]) h0
    linarith

theorem sentinel_unreachable_delta_bounded_witness :
    noSelfLoopB [((2 : ℕ), (3 : ℕ), (1 : ℚ))] = true ∧
    ((2 : ℕ), (3 : ℕ), (1 : ℚ)) ∈ [((2 : ℕ), (3 : ℕ), (1 : ℚ))] ∧
    (calculate_curvature [((2 : ℕ), (3 : ℕ), (1 : ℚ))] 2 3 ≠ -1 ∧
      -DARK_ENERGY ≤ delta_w (calculate_curvature [((2 : ℕ), (3 : ℕ), (1 : ℚ))] 2 3)) :=
  ⟨by decide, List.mem_singleton.mpr rfl,
    sentinel_unreachable_delta_bounded _ 2 3 1 (by decide) (List.mem_singleton.mpr rfl)⟩

/-- C6 counterexample: constructing with `nodeCount = 0` or with
`edgeProbability = 3/2` outside `[0,1]` succeeds and returns an ordinary
graph: the code has no `InvalidConfiguration` path at all. -/
theorem construction_accepts_invalid_inputs :
    create_manual_random_graph 0 (3/2) (fun _ => 0) = ⟨[], []⟩ ∧
    create_manual_random_graph 2 (3/2) (fun _ => 0) = ⟨[0, 1], [(0, 1, 1)]⟩ := by
  constructor
  · rfl
  · have hcond : ((fun _ => (0 : ℚ)) 0) < 3/2 := by norm_num
    rw [create_manual_random_graph]
    rw [show (pairList 2).enum = [(0, (0, 1))] from rfl]
    simp only [List.filterMap_cons, List.filterMap_nil]
    rw [if_pos hcond]
    rfl

/-- C6 (amended): the code performs no validation: construction is total
and yields the node list `0..n-1` for every input, including `nodeCount = 0`
(empty graph) and edge probabilities outside `[0,1]`; `InvalidConfiguration`
exists only as the spec's recommendation for a reimplementation. -/
theorem construction_total_no_validation (n : ℕ) (p : ℚ) (rnd : ℕ → ℚ) :
    (create_manual_random_graph n p rnd).nodes = List.range n ∧
      (create_manual_random_graph 0 p rnd).edges = [] :=
  ⟨rfl, rfl⟩

lemma create_congr (n : ℕ) (p : ℚ) (rnd₁ rnd₂ : ℕ → ℚ)
    (h : ∀ i, i < (pairList n).length → rnd₁ i = rnd₂ i) :
    create_manual_random_graph n p rnd₁ = create_manual_random_graph n p rnd₂ := by
  unfold create_manual_random_graph
  congr 1
  apply List.filterMap_congr
  intro ke hke
  rw [h ke.1 (List.fst_lt_of_mem_enum hke)]

/-- C7: Determinism: two runs with the same `(nodeCount, edgeProbability)`
whose random streams agree on every draw the construction consumes produce
the same initial graph and the same evolution trajectory (states and
per-tick removal counts) for any number of ticks; the ticks themselves
consume no randomness. -/
theorem deterministic_trajectory (n : ℕ) (p : ℚ) (rnd₁ rnd₂ : ℕ → ℚ) (k : ℕ)
    (h : (List.range (pairList n).length).map rnd₁ =
      (List.range (pairList n).length).map rnd₂) :
    crystalInit n p rnd₁ = crystalInit n p rnd₂ ∧
      simHistory n p rnd₁ k = simHistory n p rnd₂ k := by
  have hpt : ∀ i, i < (pairList n).length → rnd₁ i = rnd₂ i := by
    intro i hi
    have h1 := congrArg (fun l => l[i]?) h
    simpa [List.getElem?_map, List.getElem?_range, hi] using h1
  have hinit : crystalInit n p rnd₁ = crystalInit n p rnd₂ := by
    unfold crystalInit
    rw [create_congr n p rnd₁ rnd₂ hpt]
  refine ⟨hinit, ?_⟩
  induction k with
  | zero => simp only [simHistory, hinit]
  | succ k ihk =>
    simp only [simHistory]
    rw [ihk]

theorem deterministic_trajectory_witness :
    ((List.range (pairList 2).length).map (fun _ => (0 : ℚ)) =
      (List.range (pairList 2).length).map (fun i => if i = 0 then (0 : ℚ) else 7)) ∧
    (crystalInit 2 (1/4) (fun _ => (0 : ℚ)) =
        crystalInit 2 (1/4) (fun i => if i = 0 then (0 : ℚ) else 7) ∧
      simHistory 2 (1/4) (fun _ => (0 : ℚ)) 3 =
        simHistory 2 (1/4) (fun i => if i = 0 then (0 : ℚ) else 7) 3) :=
  ⟨rfl, deterministic_trajectory 2 (1/4) _ _ 3 rfl⟩

/-- C8: Node-set frame condition: a tick never changes the node list, and
after any number of ticks from a freshly constructed crystal the nodes are
exactly `0..n-1` as created: only edges ever change. -/
theorem nodes_never_change (G : Graph) (n : ℕ) (p : ℚ) (rnd : ℕ → ℚ) (k : ℕ) :
    (tick G).1.nodes = G.nodes ∧
      (ticksN (crystalInit n p rnd) k).nodes = List.range n := by
  refine ⟨rfl, ?_⟩
  induction k with
  | zero => rfl
  | succ k ihk =>
    rw [ticksN]
    rw [show (tick (ticksN (crystalInit n p rnd) k)).1.nodes =
      (ticksN (crystalInit n p rnd) k).nodes from rfl]
    exact ihk

/-- C9: for every pair `(u,v)` that is an actual edge of a loop-free edge
list, `calculate_curvature` never returns the sentinel `-1` and its result
lies in `[0,1)`: both endpoint neighbourhoods are nonempty and the union
strictly exceeds the intersection, so the sentinel branches are unreachable
from `evolve()`. -/
theorem curvature_defined_on_edges (E : List Edge) (u v : ℕ) (w : ℚ)
    (hs : noSelfLoopB E = true) (he : (u, v, w) ∈ E) :
    calculate_curvature E u v ≠ -1 ∧
      0 ≤ calculate_curvature E u v ∧ calculate_curvature E u v < 1 := by
  obtain ⟨h0, h1⟩ := curvature_edge_bounds hs he
  refine ⟨?_, h0, h1⟩
  intro hc
  rw [hc] at h0
  norm_num at h0

theorem curvature_defined_on_edges_witness :
    noSelfLoopB [((0 : ℕ), (1 : ℕ), (1 : ℚ))] = true ∧
    ((0 : ℕ), (1 : ℕ), (1 : ℚ)) ∈ [((0 : ℕ), (1 : ℕ), (1 : ℚ))] ∧
    (calculate_curvature [((0 : ℕ), (1 : ℕ), (1 : ℚ))] 0 1 ≠ -1 ∧
      0 ≤ calculate_curvature [((0 : ℕ), (1 : ℕ), (1 : ℚ))] 0 1 ∧
      calculate_curvature [((0 : ℕ), (1 : ℕ), (1 : ℚ))] 0 1 < 1) :=
  ⟨by decide, List.mem_singleton.mpr rfl,
    curvature_defined_on_edges _ 0 1 1 (by decide) (List.mem_singleton.mpr rfl)⟩

/-- C10: `evolve()` never adds an edge: for every graph state, every edge
surviving the tick has an unordered pair that was already an edge before it,
and the survivor count plus the returned removal count equals the pre-tick
edge count — also when the tick removes every edge — so the edge count is
non-increasing and the return value is exactly the decrease. -/
theorem evolve_never_adds_edges (E : List Edge) (h : nodupPairsB E = true) :
    (evolve E).1.all (fun e => pairMemB (e.1, e.2.1) E) = true ∧
      (evolve E).1.length + (evolve E).2 = E.length := by
  rw [evolve_eq_ref_of_nodup E h, evolve_ref]
  dsimp only
  constructor
  · rw [List.all_eq_true]
    intro e he
    rcases List.mem_filter.mp he with ⟨hmem, _⟩
    rcases List.mem_map.mp hmem with ⟨e', he', rfl⟩
    rw [pairMemB, List.any_eq_true]
    exact ⟨e', he', pairEq_refl _⟩
  · have hpart := filter_length_partition
      (List.map (fun e => (e.1, e.2.1, refWeight E e)) E)
      (fun e => decide (e.2.2 < CUTOFF_THRESHOLD))
    rw [List.length_map] at hpart
    exact hpart

theorem evolve_never_adds_edges_witness :
    nodupPairsB [((0 : ℕ), (1 : ℕ), (2 : ℚ)/5)] = true ∧
    ((evolve [((0 : ℕ), (1 : ℕ), (2 : ℚ)/5)]).1.all
        (fun e => pairMemB (e.1, e.2.1) [((0 : ℕ), (1 : ℕ), (2 : ℚ)/5)]) = true ∧
      (evolve [((0 : ℕ), (1 : ℕ), (2 : ℚ)/5)]).1.length +
        (evolve [((0 : ℕ), (1 : ℕ), (2 : ℚ)/5)]).2 =
        ([((0 : ℕ), (1 : ℕ), (2 : ℚ)/5)] : List Edge).length) :=
  ⟨by decide, evolve_never_adds_edges _ (by decide)⟩
